import Mathlib

/-!
Shallow embedding of `src/tang/gowin_pll_parser.py` (NanoMig repository):
a parameter extractor for `defparam` netlist lines followed by a PLL
frequency/phase calculator.  Python floats are modelled by exact rationals;
Python's `KeyError` and `ZeroDivisionError` paths are modelled explicitly
as run outcomes.
-/

namespace NanoMigPll

/-- A value stored in the parameter mapping: the extractor only ever stores
booleans (from `"TRUE"`/`"FALSE"` tokens) or natural numbers (from all-digit
tokens). -/
inductive Value where
  | bool (b : Bool)
  | int (n : Nat)
deriving DecidableEq

/-- Numeric promotion, as Python applies to `bool`/`int` in arithmetic. -/
def Value.toRat : Value → ℚ
  | .bool b => if b then 1 else 0
  | .int n => (n : ℚ)

/-- Python truthiness of a stored value. -/
def Value.truthy : Value → Bool
  | .bool b => b
  | .int n => n != 0

/-- The parameter mapping `params`: an association list where the most
recent insertion for a key shadows earlier ones (Python dict overwrite). -/
abbrev Params := List (String × Value)

/-- `params[name] = value` (later assignment wins on lookup). -/
def setParam (p : Params) (k : String) (v : Value) : Params := (k, v) :: p

/-- Dictionary lookup, `none` when the key is absent. -/
def getParam : Params → String → Option Value
  | [], _ => none
  | (k2, v) :: rest, k => if k2 = k then some v else getParam rest k

/-- `key in params`. -/
def hasParam (p : Params) (k : String) : Bool := (getParam p k).isSome

/-- The whitespace characters stripped by Python `str.strip()`. -/
def isSpaceChar (c : Char) : Bool :=
  c = ' ' || c = '\t' || c = '\n' || c = '\r' || c = '\x0b' || c = '\x0c'

/-- `line.strip()`. -/
def pyStrip (l : List Char) : List Char :=
  ((l.dropWhile isSpaceChar).reverse.dropWhile isSpaceChar).reverse

/-- `.rstrip(";")`: remove every trailing semicolon. -/
def rstripSemis (l : List Char) : List Char :=
  (l.reverse.dropWhile (· = ';')).reverse

/-- Accumulator version of Python `str.split()` (split on whitespace runs,
no empty tokens). -/
def splitWSAux : List Char → List Char → List (List Char)
  | [], acc => if acc = [] then [] else [acc.reverse]
  | c :: rest, acc =>
    if isSpaceChar c then
      if acc = [] then splitWSAux rest []
      else acc.reverse :: splitWSAux rest []
    else splitWSAux rest (c :: acc)

/-- Python `str.split()` with no argument. -/
def splitWS (l : List Char) : List (List Char) := splitWSAux l []

/-- Python `str.split(".")`: the pieces between dots (never empty as a list
of pieces). -/
def splitOnDot : List Char → List (List Char)
  | [] => [[]]
  | c :: rest =>
    let r := splitOnDot rest
    if c = '.' then [] :: r
    else
      match r with
      | [] => [[c]]
      | h :: t => (c :: h) :: t

/-- `parts[1].split(".")[-1].lower()`: the normalized parameter name. -/
def keyOf (t1 : List Char) : String :=
  String.mk (((splitOnDot t1).getLastD []).map Char.toLower)

/-- `parts[3].strip("\x22")`: remove every leading and trailing double
quote. -/
def stripQuotes (l : List Char) : List Char :=
  (((l.dropWhile (· = '"')).reverse.dropWhile (· = '"')).reverse)

/-- `value.isdigit()` restricted to ASCII: nonempty and all decimal
digits. -/
def isDigits (l : List Char) : Bool := !l.isEmpty && l.all Char.isDigit

/-- `int(value)` for an all-digit string. -/
def parseDecimal (l : List Char) : Nat :=
  l.foldl (fun a c => a * 10 + (c.toNat - 48)) 0

/-- The value-coercion chain of the extractor: strip quotes, then
case-insensitive `"false"`/`"true"`, then all-digits, else `None`. -/
def coerceValue (raw : List Char) : Option Value :=
  let v := stripQuotes raw
  if v.map Char.toLower = "false".data then some (Value.bool false)
  else if v.map Char.toLower = "true".data then some (Value.bool true)
  else if isDigits v then some (Value.int (parseDecimal v))
  else none

/-- `line.strip().rstrip(";").split()`. -/
def lineTokens (line : String) : List (List Char) :=
  splitWS (rstripSemis (pyStrip line.data))

/-- The shape test of the extractor: exactly four tokens,
`parts[0].lower() == "defparam"`, `parts[2] == "="`. -/
def lineGate (line : String) : Bool :=
  match lineTokens line with
  | [t0, _, t2, _] => decide (t0.map Char.toLower = "defparam".data ∧ t2 = ['='])
  | _ => false

/-- One iteration of the extractor loop on one input line. -/
def processLine (params : Params) (line : String) : Params :=
  match lineTokens line with
  | [t0, t1, t2, t3] =>
    if t0.map Char.toLower = "defparam".data ∧ t2 = ['='] then
      match coerceValue t3 with
      | some v => setParam params (keyOf t1) v
      | none => params
    else params
  | _ => params

/-- The whole extractor pass: fold the loop over the input lines, starting
from the empty dictionary. -/
def extractParams (lines : List String) : Params := lines.foldl processLine []

/-- One print statement of the report, with the numeric payloads kept as
exact rationals. -/
inductive ReportLine where
  | noClock
  | inputClock (v : ℚ)
  | pfLine (v : ℚ)
  | channelHeader (i : Nat)
  | freq (v : ℚ)
  | phase (v : ℚ)
deriving DecidableEq

/-- How a run of the program ends: normal completion (exit 0), the explicit
`sys.exit(-1)` on a missing input clock, an uncaught `KeyError` on a dict
lookup, or an uncaught `ZeroDivisionError`. -/
inductive Outcome where
  | ok
  | exitFatal
  | keyError (k : String)
  | zeroDiv
deriving DecidableEq

def clkoutEnKey (i : Nat) : String := "clkout" ++ toString i ++ "_en"

def odivSelKey (i : Nat) : String := "odiv" ++ toString i ++ "_sel"

def odivFracKey (i : Nat) : String := "odiv" ++ toString i ++ "_frac_sel"

def peCoarseKey (i : Nat) : String := "clkout" ++ toString i ++ "_pe_coarse"

def peFineKey (i : Nat) : String := "clkout" ++ toString i ++ "_pe_fine"

/-- `"clkout{i}_en" in params and params["clkout{i}_en"]`. -/
def channelEnabled (params : Params) (i : Nat) : Bool :=
  match getParam params (clkoutEnKey i) with
  | some v => v.truthy
  | none => false

/-- The effective output divider of channel `i`: `odiv{i}_sel`, plus
`odiv{i}_frac_sel/8` when present (`0` when the selector is absent, in
which case the program never reaches the division). -/
def odivQ (params : Params) (i : Nat) : ℚ :=
  match getParam params (odivSelKey i) with
  | none => 0
  | some o =>
    match getParam params (odivFracKey i) with
    | some f => o.toRat + f.toRat / 8
    | none => o.toRat

/-- The body of the loop for one enabled channel: the lines it prints and,
when it aborts the run, the outcome.  Mirrors the statement order of the
source: `odiv` lookup, fractional add, header print, frequency print
(where a zero divider raises), `pe_coarse` lookup, `pe_fine` lookup,
phase print. -/
def channelReport (params : Params) (pf : ℚ) (i : Nat) :
    List ReportLine × Option Outcome :=
  match getParam params (odivSelKey i) with
  | none => ([], some (Outcome.keyError (odivSelKey i)))
  | some o =>
    let odiv : ℚ :=
      match getParam params (odivFracKey i) with
      | some f => o.toRat + f.toRat / 8
      | none => o.toRat
    if odiv = 0 then
      ([ReportLine.channelHeader i], some Outcome.zeroDiv)
    else
      match getParam params (peCoarseKey i) with
      | none => ([ReportLine.channelHeader i, ReportLine.freq (pf / odiv)],
          some (Outcome.keyError (peCoarseKey i)))
      | some c =>
        match getParam params (peFineKey i) with
        | none => ([ReportLine.channelHeader i, ReportLine.freq (pf / odiv)],
            some (Outcome.keyError (peFineKey i)))
        | some fv =>
          ([ReportLine.channelHeader i, ReportLine.freq (pf / odiv),
            ReportLine.phase (360 * (c.toRat + fv.toRat / 8) / odiv)], none)

/-- The channel loop over a list of channel indices: a disabled channel is
skipped, an aborting channel ends the run with its partial output. -/
def goChannels (params : Params) (pf : ℚ) : List Nat → List ReportLine × Outcome
  | [] => ([], Outcome.ok)
  | i :: rest =>
    if channelEnabled params i then
      match channelReport params pf i with
      | (ls, some o) => (ls, o)
      | (ls, none) =>
        let r := goChannels params pf rest
        (ls ++ r.1, r.2)
    else goChannels params pf rest

/-- `for i in range(8): ...`. -/
def runChannels (params : Params) (pf : ℚ) : List ReportLine × Outcome :=
  goChannels params pf (List.range 8)

/-- `fbdiv`: `params["fbdiv_sel"]` when present, else `1`. -/
def fbdivQ (params : Params) : ℚ :=
  ((getParam params "fbdiv_sel").getD (Value.int 1)).toRat

/-- `idiv`: `params["idiv_sel"]` when present, else `1`. -/
def idivQ (params : Params) : ℚ :=
  ((getParam params "idiv_sel").getD (Value.int 1)).toRat

/-- `mdiv` before the fractional add. -/
def mdivBaseQ (params : Params) : ℚ :=
  ((getParam params "mdiv_sel").getD (Value.int 1)).toRat

/-- `mdiv`, with `params["mdiv_frac_sel"]/8` added when that key is
present. -/
def mdivQ (params : Params) : ℚ :=
  match getParam params "mdiv_frac_sel" with
  | some f => mdivBaseQ params + f.toRat / 8
  | none => mdivBaseQ params

/-- The calculator pass: missing-clock check, divider resolution, input
clock and `pf` prints (a zero `idiv` raises in the `pf` expression, after
the input-clock print), then the channel loop. -/
def runCalc (params : Params) : List ReportLine × Outcome :=
  match getParam params "fclkin" with
  | none => ([ReportLine.noClock], Outcome.exitFatal)
  | some fv =>
    if idivQ params = 0 then
      ([ReportLine.inputClock fv.toRat], Outcome.zeroDiv)
    else
      let pf : ℚ := fv.toRat * fbdivQ params / idivQ params * mdivQ params
      let r := runChannels params pf
      (ReportLine.inputClock fv.toRat :: ReportLine.pfLine pf :: r.1, r.2)

/-- The whole program on the lines of the input file. -/
def runProgram (lines : List String) : List ReportLine × Outcome :=
  runCalc (extractParams lines)

/-! ## Helper lemmas -/

theorem toLower_of_digit (c : Char) (h : c.isDigit = true) : c.toLower = c := by
  simp only [Char.isDigit, Bool.and_eq_true, decide_eq_true_eq, ge_iff_le] at h
  obtain ⟨h1, h2⟩ := h
  have h2n : c.val.toNat ≤ 57 := h2
  rw [Char.toLower]
  rw [if_neg]
  intro hcon
  simp [Char.toNat] at hcon
  omega

theorem digits_ne_true (v : List Char) (ha : v.all Char.isDigit = true) :
    v.map Char.toLower ≠ "true".data := by
  intro hcon
  cases v with
  | nil => simp at hcon
  | cons c rest =>
    have hd : c.isDigit = true := by
      simp [List.all_cons] at ha; exact ha.1
    rw [List.map_cons] at hcon
    have h2 : c.toLower = 't' := by
      have h3 : "true".data = 't' :: "rue".data := by decide
      rw [h3] at hcon
      exact (List.cons.injEq _ _ _ _ ▸ hcon).1
    rw [toLower_of_digit c hd] at h2
    subst h2
    simp at hd

theorem digits_ne_false (v : List Char) (ha : v.all Char.isDigit = true) :
    v.map Char.toLower ≠ "false".data := by
  intro hcon
  cases v with
  | nil => simp at hcon
  | cons c rest =>
    have hd : c.isDigit = true := by
      simp [List.all_cons] at ha; exact ha.1
    rw [List.map_cons] at hcon
    have h2 : c.toLower = 'f' := by
      have h3 : "false".data = 'f' :: "alse".data := by decide
      rw [h3] at hcon
      exact (List.cons.injEq _ _ _ _ ▸ hcon).1
    rw [toLower_of_digit c hd] at h2
    subst h2
    simp at hd

theorem splitOnDot_no_dot (l : List Char) (h : '.' ∉ l) : splitOnDot l = [l] := by
  induction l with
  | nil => rfl
  | cons c rest ih =>
    have hc : ¬ c = '.' := fun hc => h (by simp [hc])
    have hr : '.' ∉ rest := fun hm => h (by simp [hm])
    simp [splitOnDot, hc, ih hr]

theorem channelReport_complete (params : Params) (pf : ℚ) (i : Nat)
    (ho : hasParam params (odivSelKey i) = true) (hnz : odivQ params i ≠ 0)
    (hc : hasParam params (peCoarseKey i) = true)
    (hf : hasParam params (peFineKey i) = true) :
    (channelReport params pf i).2 = none := by
  unfold hasParam at ho hc hf
  obtain ⟨o, ho⟩ := Option.isSome_iff_exists.mp ho
  obtain ⟨c, hc⟩ := Option.isSome_iff_exists.mp hc
  obtain ⟨f, hf⟩ := Option.isSome_iff_exists.mp hf
  unfold odivQ at hnz
  rw [ho] at hnz
  cases hfr : getParam params (odivFracKey i) <;>
    rw [hfr] at hnz <;>
    simp [channelReport, ho, hc, hf, hfr, hnz]

theorem goChannels_all_ok (params : Params) (pf : ℚ) (l : List Nat)
    (h : ∀ i ∈ l, channelEnabled params i = true → (channelReport params pf i).2 = none) :
    goChannels params pf l =
      ((l.filter (fun i => channelEnabled params i)).flatMap
        (fun i => (channelReport params pf i).1), Outcome.ok) := by
  induction l with
  | nil => rfl
  | cons i rest ih =>
    have ihr := ih (fun j hj hje => h j (by simp [hj]) hje)
    by_cases he : channelEnabled params i = true
    · have hsnd : (channelReport params pf i).2 = none := h i (by simp) he
      obtain ⟨ls, hls⟩ : ∃ ls, channelReport params pf i = (ls, none) :=
        ⟨(channelReport params pf i).1, by rw [← hsnd]⟩
      simp [goChannels, he, hls, ihr, List.filter_cons]
    · simp [goChannels, he, ihr, List.filter_cons]

theorem goChannels_prefix_abort (params : Params) (pf : ℚ) (i : Nat)
    (ls : List ReportLine) (e : Outcome) (l1 l2 : List Nat)
    (h1 : ∀ j ∈ l1, channelEnabled params j = true → (channelReport params pf j).2 = none)
    (he : channelEnabled params i = true)
    (hr : channelReport params pf i = (ls, some e)) :
    goChannels params pf (l1 ++ i :: l2) =
      ((l1.filter (fun j => channelEnabled params j)).flatMap
        (fun j => (channelReport params pf j).1) ++ ls, e) := by
  induction l1 with
  | nil => simp [goChannels, he, hr]
  | cons j rest ih =>
    have ihr := ih (fun j2 hj2 hje => h1 j2 (by simp [hj2]) hje)
    by_cases hje : channelEnabled params j = true
    · have hsnd : (channelReport params pf j).2 = none := h1 j (by simp) hje
      obtain ⟨ls2, hls2⟩ : ∃ ls2, channelReport params pf j = (ls2, none) :=
        ⟨(channelReport params pf j).1, by rw [← hsnd]⟩
      simp [goChannels, hje, hls2, ihr, List.filter_cons]
    · simp [goChannels, hje, ihr, List.filter_cons]

theorem range8_decomp (i : Nat) (hi : i < 8) :
    ∃ l2, List.range 8 = List.range i ++ i :: l2 := by
  interval_cases i
  · exact ⟨[1, 2, 3, 4, 5, 6, 7], by decide⟩
  · exact ⟨[2, 3, 4, 5, 6, 7], by decide⟩
  · exact ⟨[3, 4, 5, 6, 7], by decide⟩
  · exact ⟨[4, 5, 6, 7], by decide⟩
  · exact ⟨[5, 6, 7], by decide⟩
  · exact ⟨[6, 7], by decide⟩
  · exact ⟨[7], by decide⟩
  · exact ⟨[], by decide⟩

/-! ## Claim theorems -/

/-- C1: for a processed channel `i` whose selector keys are present (and whose
effective divider is nonzero, so the division is reached), the reported output
frequency is `pf / odiv` and the reported phase is
`360 * (pe_coarse + pe_fine/8) / odiv`, where `odiv` is `odiv{i}_sel` plus
`odiv{i}_frac_sel/8` when that key is present (`odivQ`). -/
theorem channel_freq_phase_formula (params : Params) (pf : ℚ) (i : Nat) (o c f : Value)
    (ho : getParam params (odivSelKey i) = some o)
    (hc : getParam params (peCoarseKey i) = some c)
    (hf : getParam params (peFineKey i) = some f)
    (hnz : odivQ params i ≠ 0) :
    channelReport params pf i =
      ([ReportLine.channelHeader i, ReportLine.freq (pf / odivQ params i),
        ReportLine.phase (360 * (c.toRat + f.toRat / 8) / odivQ params i)], none) := by
  cases hfr : getParam params (odivFracKey i) <;>
    simp only [channelReport, odivQ, ho, hc, hf, hfr] at hnz ⊢ <;>
    simp [hnz]

def c1params : Params := [("odiv0_sel", Value.int 4), ("clkout0_pe_coarse", Value.int 2),
  ("clkout0_pe_fine", Value.int 0)]

theorem channel_freq_phase_formula_witness :
    channelReport c1params 1800 0 =
      ([ReportLine.channelHeader 0, ReportLine.freq (1800 / odivQ c1params 0),
        ReportLine.phase
          (360 * ((Value.int 2).toRat + (Value.int 0).toRat / 8) / odivQ c1params 0)], none) :=
  channel_freq_phase_formula c1params 1800 0 (Value.int 4) (Value.int 2) (Value.int 0)
    (by decide) (by decide) (by decide)
    (by norm_num +decide [odivQ, getParam, odivSelKey, odivFracKey, Value.toRat])

/-- C2: the feedback frequency printed on the `pf` line is
`fclkin * fbdiv / idiv * mdiv` grouped strictly left to right:
`((fclkin * fbdiv) / idiv) * mdiv`, with the `/8` fractional term already
folded into `mdiv`.  The embedding models the Python floats by exact
rationals, preserving the operation order of the source. -/
theorem pf_left_to_right_grouping (params : Params) (a : Value)
    (h : getParam params "fclkin" = some a) (hz : idivQ params ≠ 0) :
    (runCalc params).1.take 2 =
      [ReportLine.inputClock a.toRat,
       ReportLine.pfLine (((a.toRat * fbdivQ params) / idivQ params) * mdivQ params)] := by
  simp [runCalc, h, hz]

def c2params : Params := [("fclkin", Value.int 50), ("fbdiv_sel", Value.int 2),
  ("idiv_sel", Value.int 4), ("mdiv_sel", Value.int 3)]

theorem pf_left_to_right_grouping_witness :
    (runCalc c2params).1.take 2 =
      [ReportLine.inputClock (Value.int 50).toRat,
       ReportLine.pfLine
         ((((Value.int 50).toRat * fbdivQ c2params) / idivQ c2params) * mdivQ c2params)] :=
  pf_left_to_right_grouping c2params (Value.int 50) (by decide)
    (by norm_num +decide [idivQ, getParam, Value.toRat])

/-- C5: the dividers used by the calculator: `fbdiv` is `fbdiv_sel` or `1`
when absent, `idiv` is `idiv_sel` or `1` when absent, `mdiv` is `mdiv_sel`
or `1` when absent, with `mdiv_frac_sel/8` added when that key is present. -/
theorem divider_defaults (params : Params) :
    (∀ v, getParam params "fbdiv_sel" = some v → fbdivQ params = v.toRat) ∧
    (getParam params "fbdiv_sel" = none → fbdivQ params = 1) ∧
    (∀ v, getParam params "idiv_sel" = some v → idivQ params = v.toRat) ∧
    (getParam params "idiv_sel" = none → idivQ params = 1) ∧
    (∀ v, getParam params "mdiv_sel" = some v → getParam params "mdiv_frac_sel" = none →
      mdivQ params = v.toRat) ∧
    (getParam params "mdiv_sel" = none → getParam params "mdiv_frac_sel" = none →
      mdivQ params = 1) ∧
    (∀ v w, getParam params "mdiv_sel" = some v → getParam params "mdiv_frac_sel" = some w →
      mdivQ params = v.toRat + w.toRat / 8) ∧
    (∀ w, getParam params "mdiv_sel" = none → getParam params "mdiv_frac_sel" = some w →
      mdivQ params = 1 + w.toRat / 8) := by
  refine ⟨?_, ?_, ?_, ?_, ?_, ?_, ?_, ?_⟩ <;>
    intros <;> simp [fbdivQ, idivQ, mdivQ, mdivBaseQ, Value.toRat, *]

def c5params : Params := [("fbdiv_sel", Value.int 2), ("idiv_sel", Value.int 4),
  ("mdiv_sel", Value.int 18), ("mdiv_frac_sel", Value.int 4)]

theorem divider_defaults_witness :
    fbdivQ c5params = (Value.int 2).toRat ∧ idivQ c5params = (Value.int 4).toRat ∧
    mdivQ c5params = (Value.int 18).toRat + (Value.int 4).toRat / 8 ∧
    fbdivQ [] = 1 ∧ idivQ [] = 1 ∧ mdivQ [] = 1 :=
  ⟨(divider_defaults c5params).1 _ (by decide),
   (divider_defaults c5params).2.2.1 _ (by decide),
   (divider_defaults c5params).2.2.2.2.2.2.1 _ _ (by decide) (by decide),
   (divider_defaults []).2.1 rfl,
   (divider_defaults []).2.2.2.1 rfl,
   (divider_defaults []).2.2.2.2.2.1 rfl rfl⟩

/-- C6: a line is processed only when it splits (after stripping whitespace
and trailing semicolons) into exactly 4 tokens with `token[0]`
case-insensitively `defparam` and `token[2]` exactly `=`; the stored key is
the segment of `token[1]` after the last dot, lower-cased (`keyOf`); a
quote-stripped `TRUE`/`FALSE` in any case is stored as a boolean, an
all-digit value as an integer; and
`defparam top.inst.FCLKIN = "50";` yields `fclkin -> 50`. -/
theorem extractor_defparam_shape (params : Params) (line : String) :
    (lineGate line = false → processLine params line = params) ∧
    (∀ t0 t1 t2 t3, lineTokens line = [t0, t1, t2, t3] →
      t0.map Char.toLower = "defparam".data → t2 = ['='] →
      (((stripQuotes t3).map Char.toLower = "true".data →
        processLine params line = setParam params (keyOf t1) (Value.bool true)) ∧
       ((stripQuotes t3).map Char.toLower = "false".data →
        processLine params line = setParam params (keyOf t1) (Value.bool false)) ∧
       (isDigits (stripQuotes t3) = true →
        processLine params line =
          setParam params (keyOf t1) (Value.int (parseDecimal (stripQuotes t3)))))) ∧
    getParam (processLine [] "defparam top.inst.FCLKIN = \"50\";") "fclkin" =
      some (Value.int 50) := by
  refine ⟨?_, ?_, by decide⟩
  · intro hg
    unfold lineGate at hg
    unfold processLine
    split
    · next t0 t1 t2 t3 heq =>
      rw [heq] at hg
      by_cases hcond : (t0.map Char.toLower = "defparam".data ∧ t2 = ['='])
      · simp [hcond] at hg
      · rw [if_neg hcond]
    · rfl
  · intro t0 t1 t2 t3 ht hd he
    refine ⟨?_, ?_, ?_⟩
    · intro hv
      simp only [processLine, ht]
      rw [if_pos ⟨hd, he⟩]
      simp +decide [coerceValue, hv]
    · intro hv
      simp only [processLine, ht]
      rw [if_pos ⟨hd, he⟩]
      simp +decide [coerceValue, hv]
    · intro hv
      have hall : (stripQuotes t3).all Char.isDigit = true := by
        have hv2 := hv
        unfold isDigits at hv2
        simp only [Bool.and_eq_true] at hv2
        exact hv2.2
      simp only [processLine, ht]
      rw [if_pos ⟨hd, he⟩]
      simp [coerceValue, hv, digits_ne_true _ hall, digits_ne_false _ hall]

theorem extractor_defparam_shape_witness :
    processLine [] "defparam g.CLKOUT0_EN = \"TRUE\"" =
      setParam [] (keyOf "g.CLKOUT0_EN".data) (Value.bool true) :=
  (((extractor_defparam_shape [] "defparam g.CLKOUT0_EN = \"TRUE\"").2.1
    "defparam".data "g.CLKOUT0_EN".data ['='] "\"TRUE\"".data
    (by decide) (by decide) (by decide)).1 (by decide))

/-- C7: when the quote-stripped value token coerces to neither boolean nor
integer, the line leaves the mapping entirely unchanged: the key is not
inserted and a previously stored value survives; in particular `"3.5"` is
dropped.  (Every stored value is a boolean or an integer by the type of
`Value`.) -/
theorem uncoercible_value_dropped (params : Params) (line : String) :
    (∀ t0 t1 t2 t3, lineTokens line = [t0, t1, t2, t3] → coerceValue t3 = none →
      processLine params line = params) ∧
    coerceValue ("\"3.5\"".data) = none ∧
    processLine [("x", Value.int 7)] "defparam a.x = \"3.5\"" = [("x", Value.int 7)] ∧
    getParam (processLine [("x", Value.int 7)] "defparam a.x = \"3.5\"") "x" =
      some (Value.int 7) := by
  refine ⟨?_, by decide, by decide, by decide⟩
  intro t0 t1 t2 t3 ht hcv
  simp only [processLine, ht, hcv]
  split <;> rfl

theorem uncoercible_value_dropped_witness :
    processLine [] "defparam a.b = xyz" = [] :=
  (uncoercible_value_dropped [] "defparam a.b = xyz").1
    "defparam".data "a.b".data "=".data "xyz".data (by decide) (by decide)

/-- C10: a `defparam` line whose name token has no dot still inserts an
entry, under the whole name token lower-cased (taking the segment after
the last dot of a dot-free name yields the whole name). -/
theorem undotted_name_inserted (params : Params) (line : String)
    (t0 t1 t2 t3 : List Char) (v : Value)
    (ht : lineTokens line = [t0, t1, t2, t3])
    (hd : t0.map Char.toLower = "defparam".data) (he : t2 = ['='])
    (hnd : '.' ∉ t1) (hv : coerceValue t3 = some v) :
    processLine params line = setParam params (String.mk (t1.map Char.toLower)) v ∧
    getParam (processLine params line) (String.mk (t1.map Char.toLower)) = some v := by
  have hkey : keyOf t1 = String.mk (t1.map Char.toLower) := by
    simp [keyOf, splitOnDot_no_dot t1 hnd]
  have h1 : processLine params line = setParam params (keyOf t1) v := by
    simp only [processLine, ht, hv]
    rw [if_pos ⟨hd, he⟩]
  rw [hkey] at h1
  refine ⟨h1, ?_⟩
  rw [h1]
  simp [getParam, setParam]

theorem undotted_name_inserted_witness :
    processLine [] "defparam FCLKIN = 50" =
      setParam [] (String.mk ("FCLKIN".data.map Char.toLower)) (Value.int 50) ∧
    getParam (processLine [] "defparam FCLKIN = 50")
      (String.mk ("FCLKIN".data.map Char.toLower)) = some (Value.int 50) :=
  undotted_name_inserted [] "defparam FCLKIN = 50" "defparam".data "FCLKIN".data
    ['='] "50".data (Value.int 50) (by decide) (by decide) (by decide) (by decide)
    (by decide)

def c3cexA : Params := [("fclkin", Value.int 50), ("idiv_sel", Value.int 0)]

def c3cexB : Params := [("fclkin", Value.int 50), ("clkout0_en", Value.bool true),
  ("odiv0_sel", Value.int 0), ("clkout0_pe_coarse", Value.int 2),
  ("clkout0_pe_fine", Value.int 0)]

/-- C3 counterexample: with `fclkin` present the run can still end abnormally.
With `idiv_sel = 0` (and zero channels enabled) the `pf` expression divides by
zero; with required channel keys all present but `odiv0_sel = 0` the frequency
division divides by zero.  Neither run completes with the normal outcome. -/
theorem normal_completion_cex :
    (hasParam c3cexA "fclkin" = true ∧
     (List.range 8).all (fun i => !(channelEnabled c3cexA i)) = true ∧
     runCalc c3cexA = ([ReportLine.inputClock 50], Outcome.zeroDiv) ∧
     (runCalc c3cexA).2 ≠ Outcome.ok) ∧
    (hasParam c3cexB "fclkin" = true ∧
     channelEnabled c3cexB 0 = true ∧
     hasParam c3cexB (odivSelKey 0) = true ∧
     hasParam c3cexB (peCoarseKey 0) = true ∧ hasParam c3cexB (peFineKey 0) = true ∧
     (runCalc c3cexB).2 ≠ Outcome.ok) := by
  norm_num +decide [c3cexA, c3cexB, runCalc, runChannels, goChannels, channelReport,
    channelEnabled, getParam, hasParam, idivQ, fbdivQ, mdivQ, mdivBaseQ, Value.toRat,
    Value.truthy, clkoutEnKey, odivSelKey, odivFracKey, peCoarseKey, peFineKey,
    show List.range 8 = [0, 1, 2, 3, 4, 5, 6, 7] from by decide]

/-- C3 (amended): when `fclkin` is absent the run reports the missing input
clock and exits fatally; when `fclkin` is present, `idiv` is nonzero, and
every enabled channel carries its required keys with a nonzero effective
output divider, the run completes with the normal outcome (even with zero
channels enabled).  The zero-divider provisos are forced by the
counterexample: Python raises an uncaught `ZeroDivisionError` there. -/
theorem fclkin_missing_fatal_and_ok (params : Params) :
    (getParam params "fclkin" = none →
      runCalc params = ([ReportLine.noClock], Outcome.exitFatal)) ∧
    (hasParam params "fclkin" = true → idivQ params ≠ 0 →
      (∀ i ∈ List.range 8, channelEnabled params i = true →
        hasParam params (odivSelKey i) = true ∧ odivQ params i ≠ 0 ∧
        hasParam params (peCoarseKey i) = true ∧ hasParam params (peFineKey i) = true) →
      (runCalc params).2 = Outcome.ok) := by
  constructor
  · intro h
    simp [runCalc, h]
  · intro hf hz hch
    unfold hasParam at hf
    obtain ⟨fv, hfv⟩ := Option.isSome_iff_exists.mp hf
    have hgo := goChannels_all_ok params
      (fv.toRat * fbdivQ params / idivQ params * mdivQ params) (List.range 8)
      (fun i hi hie => channelReport_complete params _ i (hch i hi hie).1
        (hch i hi hie).2.1 (hch i hi hie).2.2.1 (hch i hi hie).2.2.2)
    simp [runCalc, hfv, hz, runChannels, hgo]

def c3ok : Params := [("fclkin", Value.int 50), ("clkout0_en", Value.bool true),
  ("odiv0_sel", Value.int 4), ("clkout0_pe_coarse", Value.int 2),
  ("clkout0_pe_fine", Value.int 0)]

theorem fclkin_missing_fatal_and_ok_witness :
    runCalc [] = ([ReportLine.noClock], Outcome.exitFatal) ∧
    (runCalc c3ok).2 = Outcome.ok :=
  ⟨(fclkin_missing_fatal_and_ok []).1 rfl,
   (fclkin_missing_fatal_and_ok c3ok).2 (by decide)
     (by norm_num +decide [idivQ, getParam, c3ok, Value.toRat])
     (by
       intro i hi hie
       rw [List.mem_range] at hi
       interval_cases i
       · exact ⟨by decide,
           by norm_num +decide [odivQ, getParam, c3ok, odivSelKey, odivFracKey, Value.toRat],
           by decide, by decide⟩
       all_goals exact absurd hie (by decide))⟩

def c4cex : Params := [("fclkin", Value.int 50), ("clkout0_en", Value.bool true)]

/-- C4 counterexample: an enabled channel need not produce report lines.
Channel 0 is enabled but `odiv0_sel` is absent, so the lookup aborts the
run before the channel header is printed: the channel loop emits no lines
at all even though `clkout0_en` is present and truthy. -/
theorem enabled_channel_no_lines_cex :
    channelEnabled c4cex 0 = true ∧
    runCalc c4cex = ([ReportLine.inputClock 50, ReportLine.pfLine 50],
      Outcome.keyError (odivSelKey 0)) ∧
    (runChannels c4cex 50).1 = [] := by
  norm_num +decide [c4cex, runCalc, runChannels, goChannels, channelReport,
    channelEnabled, getParam, idivQ, fbdivQ, mdivQ, mdivBaseQ, Value.toRat,
    Value.truthy, clkoutEnKey, odivSelKey, odivFracKey, peCoarseKey, peFineKey,
    show List.range 8 = [0, 1, 2, 3, 4, 5, 6, 7] from by decide]

/-- C4 (amended): provided every enabled channel's report completes (its
selector keys present and effective divider nonzero), the channel loop
examines indices 0 through 7 in ascending order and the emitted lines are
exactly those of the enabled channels, in order: a channel with
`clkout{i}_en` absent or falsy is skipped entirely and contributes
nothing, without affecting the other channels. -/
theorem channels_processed_filter (params : Params) (pf : ℚ)
    (h : ∀ i ∈ List.range 8, channelEnabled params i = true →
      (channelReport params pf i).2 = none) :
    (runChannels params pf).1 =
      ((List.range 8).filter (fun i => channelEnabled params i)).flatMap
        (fun i => (channelReport params pf i).1) := by
  unfold runChannels
  rw [goChannels_all_ok params pf (List.range 8) h]

def c4ok : Params := [("fclkin", Value.int 50), ("clkout0_en", Value.bool true),
  ("odiv0_sel", Value.int 4), ("clkout0_pe_coarse", Value.int 2),
  ("clkout0_pe_fine", Value.int 0)]

theorem channels_processed_filter_witness :
    (runChannels c4ok 50).1 =
      ((List.range 8).filter (fun i => channelEnabled c4ok i)).flatMap
        (fun i => (channelReport c4ok 50 i).1) :=
  channels_processed_filter c4ok 50 (by
    intro i hi hie
    rw [List.mem_range] at hi
    interval_cases i
    · norm_num +decide [channelReport, getParam, c4ok, odivSelKey, odivFracKey,
        peCoarseKey, peFineKey, Value.toRat]
    all_goals exact absurd hie (by decide))

/-- C8: when channel `i` is enabled but `odiv{i}_sel` is absent (and every
enabled channel before `i` completes), the channel body emits nothing and
the run ends with the lookup failure for `odiv{i}_sel`; no default is
substituted and no frequency is produced. -/
theorem missing_odiv_key_error (params : Params) (pf : ℚ) (i : Nat) (hi : i < 8)
    (he : channelEnabled params i = true)
    (ho : getParam params (odivSelKey i) = none)
    (hprev : ∀ j, j < i → channelEnabled params j = true →
      (channelReport params pf j).2 = none) :
    channelReport params pf i = ([], some (Outcome.keyError (odivSelKey i))) ∧
    runChannels params pf =
      (((List.range i).filter (fun j => channelEnabled params j)).flatMap
        (fun j => (channelReport params pf j).1), Outcome.keyError (odivSelKey i)) := by
  have hcr : channelReport params pf i = ([], some (Outcome.keyError (odivSelKey i))) := by
    simp [channelReport, ho]
  refine ⟨hcr, ?_⟩
  obtain ⟨l2, hl2⟩ := range8_decomp i hi
  unfold runChannels
  rw [hl2]
  rw [goChannels_prefix_abort params pf i [] (Outcome.keyError (odivSelKey i))
    (List.range i) l2 (fun j hj hje => hprev j (List.mem_range.mp hj) hje) he hcr]
  simp

def c8params : Params := [("clkout2_en", Value.int 1)]

theorem missing_odiv_key_error_witness :
    channelReport c8params 1 2 = ([], some (Outcome.keyError (odivSelKey 2))) ∧
    runChannels c8params 1 =
      (((List.range 2).filter (fun j => channelEnabled c8params j)).flatMap
        (fun j => (channelReport c8params 1 j).1), Outcome.keyError (odivSelKey 2)) :=
  missing_odiv_key_error c8params 1 2 (by decide) (by decide) (by decide)
    (by intro j hj hje; interval_cases j <;> exact absurd hje (by decide))

def c9cex : Params := [("fclkin", Value.int 50), ("clkout0_en", Value.bool true),
  ("odiv0_sel", Value.int 0)]

/-- C9 counterexample: with channel 0 enabled, `odiv0_sel` present but zero,
and `clkout0_pe_coarse` absent, the run does not fail with a lookup failure
after the header and frequency lines: the frequency division raises first,
so only the header is printed and the outcome is the division error. -/
theorem phase_lookup_zero_odiv_cex :
    channelEnabled c9cex 0 = true ∧
    hasParam c9cex (odivSelKey 0) = true ∧
    hasParam c9cex (peCoarseKey 0) = false ∧
    runCalc c9cex = ([ReportLine.inputClock 50, ReportLine.pfLine 50,
      ReportLine.channelHeader 0], Outcome.zeroDiv) ∧
    (runCalc c9cex).2 ≠ Outcome.keyError (peCoarseKey 0) ∧
    (runCalc c9cex).2 ≠ Outcome.keyError (peFineKey 0) := by
  norm_num +decide [c9cex, runCalc, runChannels, goChannels, channelReport,
    channelEnabled, getParam, hasParam, idivQ, fbdivQ, mdivQ, mdivBaseQ, Value.toRat,
    Value.truthy, clkoutEnKey, odivSelKey, odivFracKey, peCoarseKey, peFineKey,
    show List.range 8 = [0, 1, 2, 3, 4, 5, 6, 7] from by decide]

/-- C9 (amended): when channel `i` is enabled, `odiv{i}_sel` is present with
a nonzero effective divider, and `clkout{i}_pe_coarse` (or `_pe_fine`) is
absent, the run fails with that unguarded lookup failure only after the
channel's header and frequency lines have been emitted, leaving the
channel's report partially printed. -/
theorem phase_lookup_partial_print (params : Params) (pf : ℚ) (i : Nat) (o : Value)
    (hi : i < 8) (he : channelEnabled params i = true)
    (ho : getParam params (odivSelKey i) = some o)
    (hnz : odivQ params i ≠ 0)
    (hprev : ∀ j, j < i → channelEnabled params j = true →
      (channelReport params pf j).2 = none) :
    (getParam params (peCoarseKey i) = none →
      runChannels params pf =
        (((List.range i).filter (fun j => channelEnabled params j)).flatMap
          (fun j => (channelReport params pf j).1) ++
          [ReportLine.channelHeader i, ReportLine.freq (pf / odivQ params i)],
         Outcome.keyError (peCoarseKey i))) ∧
    (∀ c, getParam params (peCoarseKey i) = some c →
      getParam params (peFineKey i) = none →
      runChannels params pf =
        (((List.range i).filter (fun j => channelEnabled params j)).flatMap
          (fun j => (channelReport params pf j).1) ++
          [ReportLine.channelHeader i, ReportLine.freq (pf / odivQ params i)],
         Outcome.keyError (peFineKey i))) := by
  have habort : ∀ ls e, channelReport params pf i = (ls, some e) →
      runChannels params pf =
        (((List.range i).filter (fun j => channelEnabled params j)).flatMap
          (fun j => (channelReport params pf j).1) ++ ls, e) := by
    intro ls e hcr
    obtain ⟨l2, hl2⟩ := range8_decomp i hi
    unfold runChannels
    rw [hl2]
    exact goChannels_prefix_abort params pf i ls e (List.range i) l2
      (fun j hj hje => hprev j (List.mem_range.mp hj) hje) he hcr
  constructor
  · intro hcn
    refine habort _ _ ?_
    cases hfr : getParam params (odivFracKey i) <;>
      simp only [channelReport, odivQ, ho, hfr, hcn] at hnz ⊢ <;>
      simp [hnz]
  · intro c hcs hfn
    refine habort _ _ ?_
    cases hfr : getParam params (odivFracKey i) <;>
      simp only [channelReport, odivQ, ho, hfr, hcs, hfn] at hnz ⊢ <;>
      simp [hnz]

def c9params : Params := [("clkout1_en", Value.bool true), ("odiv1_sel", Value.int 4)]

theorem phase_lookup_partial_print_witness :
    runChannels c9params 100 =
      (((List.range 1).filter (fun j => channelEnabled c9params j)).flatMap
        (fun j => (channelReport c9params 100 j).1) ++
        [ReportLine.channelHeader 1, ReportLine.freq (100 / odivQ c9params 1)],
       Outcome.keyError (peCoarseKey 1)) :=
  (phase_lookup_partial_print c9params 100 1 (Value.int 4) (by decide) (by decide)
    (by decide)
    (by norm_num +decide [odivQ, getParam, c9params, odivSelKey, odivFracKey, Value.toRat])
    (by intro j hj hje; interval_cases j; exact absurd hje (by decide))).1 (by decide)

end NanoMigPll
